import Mathlib

set_option autoImplicit false

namespace Py2UML

/-! Shallow embedding of the py2uml extraction core (the `src/` tree of the
repository). Rust `String` is modelled as Lean `String`; `Vec<T>` as `List T`;
`Option<T>` as `Option T`; `Result<A, E>` as `Except E A`. A Rust panic (an
`unwrap` on `None` or an out-of-bounds index) is modelled by an outer `Option`
whose `none` means the run aborts. Rust string primitives (`starts_with`,
`ends_with`, `split`, `join`) are modelled on the character list `String.data`
so that every definition evaluates inside the kernel. -/

/-! ### Rust `str` primitives -/

/-- Rust `str::starts_with` on a string prefix. -/
def strStartsWith (s p : String) : Bool :=
  p.data.isPrefixOf s.data

/-- Rust `str::ends_with` on a string suffix. -/
def strEndsWith (s p : String) : Bool :=
  p.data.isSuffixOf s.data

/-- Rust `str::split` with a one-character separator, on character lists.
Splitting the empty list yields one empty chunk, as in Rust. -/
def splitCharList (sep : Char) : List Char → List (List Char)
  | [] => [[]]
  | c :: rest =>
      let r := splitCharList sep rest
      if c == sep then [] :: r
      else
        match r with
        | h :: t => (c :: h) :: t
        | [] => [[c]]

/-- Rust `str::split` with a one-character separator, as strings. -/
def strSplit (sep : Char) (s : String) : List String :=
  (splitCharList sep s.data).map String.mk

/-- Rust `Vec<String>::join(".")`. -/
def joinDot (parts : List String) : String :=
  String.mk (List.intersperse ['.'] (parts.map String.data)).flatten

/-! ### src/class_diagram/models.rs -/

inductive Visibility where
  | PUBLIC
  | PRIVATE
  | PROTECTED
  deriving DecidableEq, Repr

inductive ClassType where
  | CLASS
  | ABSTRACT
  | ENUM
  | EXCEPTION
  deriving DecidableEq, Repr

structure Variable where
  name : String
  visibility : Visibility
  type_name : String
  deriving DecidableEq, Repr

structure Function where
  name : String
  visibility : Visibility
  arguments : Option (List Variable)
  return_type : Option String
  deriving DecidableEq, Repr

structure ClassModel where
  name : String
  attributes : Option (List Variable)
  methods : Option (List Function)
  properties : Option (List Variable)
  class_type : ClassType
  static_methods : Option (List Function)
  abstract_methods : Option (List Function)
  deriving DecidableEq, Repr

/-! ### The parsed Python syntax tree (the slice of `ruff_python_ast` the
repository consumes): expressions, parameters and statements. -/

inductive Expr where
  | nameExpr (id : String)
  | attributeExpr (value : Expr) (attr : String)
  | subscriptExpr (value : Expr)
  | otherExpr
  deriving DecidableEq, Repr

/-- `ruff` `Expr::as_name_expr`, reduced to the identifier the code reads. -/
def Expr.as_name_expr : Expr → Option String
  | .nameExpr id => some id
  | _ => none

/-- `ruff` `Expr::attribute_expr`, reduced to the `attr.id` field the code
reads. -/
def Expr.attribute_expr : Expr → Option String
  | .attributeExpr _ attr => some attr
  | _ => none

def Expr.is_attribute_expr (e : Expr) : Bool :=
  (e.attribute_expr).isSome

def Expr.is_name_expr (e : Expr) : Bool :=
  (e.as_name_expr).isSome

def Expr.is_subscript_expr : Expr → Bool
  | .subscriptExpr _ => true
  | _ => false

/-- `ruff` `ExprSubscript::value` (meaningful only on a subscript). -/
def Expr.subscript_value : Expr → Option Expr
  | .subscriptExpr v => some v
  | _ => none

/-- One function parameter: its name and its optional annotation expression. -/
structure Parameter where
  name : String
  annot : Option Expr
  deriving DecidableEq, Repr

/-- The five parameter groups of `ruff` `Parameters`. -/
structure Parameters where
  posonlyargs : List Parameter
  args : List Parameter
  vararg : Option Parameter
  kwonlyargs : List Parameter
  kwarg : Option Parameter
  deriving DecidableEq, Repr

inductive Stmt where
  | assign (targets : List Expr)
  | augAssign (target : Expr)
  | annAssign (target : Expr)
  | matchStmt (cases : List (List Stmt))
  | classDef (name : String) (bases : Option (List Expr)) (body : List Stmt)
  | functionDef (name : String) (decorator_list : List Expr)
      (parameters : Parameters) (returns : Option Expr) (body : List Stmt)
  | tryStmt (body : List Stmt)
  | ifStmt (body : List Stmt)
  | withStmt (body : List Stmt)
  | importStmt (names : List String)
  | importFrom (module : Option String) (names : List String)
  | otherStmt
  deriving Repr

/-- `ruff` `StmtClassDef`: the fields the repository reads. -/
structure StmtClassDef where
  name : String
  arguments : Option (List Expr)
  body : List Stmt

/-- `ruff` `StmtFunctionDef`: the fields the repository reads. -/
structure StmtFunctionDef where
  name : String
  decorator_list : List Expr
  parameters : Parameters
  returns : Option Expr
  body : List Stmt

/-- `ruff` `Stmt::class_def_stmt`. -/
def Stmt.class_def_stmt : Stmt → Option StmtClassDef
  | .classDef n bs body => some ⟨n, bs, body⟩
  | _ => none

/-- `ruff` `Stmt::function_def_stmt`. -/
def Stmt.function_def_stmt : Stmt → Option StmtFunctionDef
  | .functionDef n d p r body => some ⟨n, d, p, r, body⟩
  | _ => none

/-! ### src/class_diagram/python_to_model.rs -/

/-- `extract_visibility` (lines 117-126). -/
def extract_visibility (name : String) : Visibility :=
  if strStartsWith name "__" && !(strEndsWith name "__") then
    Visibility.PRIVATE
  else if strStartsWith name "_" then
    Visibility.PROTECTED
  else
    Visibility.PUBLIC

/-! Size measure used only to justify termination of the stack-based
attribute walker. -/

mutual

def stmtSize : Stmt → Nat
  | .assign _ => 1
  | .augAssign _ => 1
  | .annAssign _ => 1
  | .matchStmt cases => 1 + casesSize cases
  | .classDef _ _ body => 1 + stmtsSize body
  | .functionDef _ _ _ _ body => 1 + stmtsSize body
  | .tryStmt body => 1 + stmtsSize body
  | .ifStmt body => 1 + stmtsSize body
  | .withStmt body => 1 + stmtsSize body
  | .importStmt _ => 1
  | .importFrom _ _ => 1
  | .otherStmt => 1

def stmtsSize : List Stmt → Nat
  | [] => 0
  | s :: rest => stmtSize s + stmtsSize rest

def casesSize : List (List Stmt) → Nat
  | [] => 0
  | c :: rest => stmtsSize c + casesSize rest

end

theorem stmtSize_pos (s : Stmt) : 0 < stmtSize s := by
  cases s <;> simp [stmtSize]

theorem stmtsSize_append (a b : List Stmt) :
    stmtsSize (a ++ b) = stmtsSize a + stmtsSize b := by
  induction a with
  | nil => simp [stmtsSize]
  | cons s rest ih => simp [stmtsSize, ih]; omega

theorem stmtsSize_reverse (l : List Stmt) :
    stmtsSize l.reverse = stmtsSize l := by
  induction l with
  | nil => rfl
  | cons s rest ih => simp [stmtsSize, List.reverse_cons, stmtsSize_append, ih]; omega

theorem stmtsSize_flatten (cases : List (List Stmt)) :
    stmtsSize cases.flatten = casesSize cases := by
  induction cases with
  | nil => rfl
  | cons c rest ih => simp [stmtsSize, casesSize, stmtsSize_append, ih]

/-- The while-pop loop of `extract_raw_attributes` (lines 88-113). The head of
the list is the top of the Rust stack, so pushing a statement list onto the
stack prepends its reverse. `none` models a panic: the `Assign` arm calls
`targets[0]` and then `.attribute_expr().unwrap()` with no shape check. -/
def extract_raw_attributes_loop : List Stmt → Option (List String)
  | [] => some []
  | s :: rest =>
    match s with
    | .augAssign target =>
        if target.is_attribute_expr then
          match target.attribute_expr with
          | some a => (extract_raw_attributes_loop rest).map (fun r => a :: r)
          | none => none
        else extract_raw_attributes_loop rest
    | .annAssign target =>
        if target.is_attribute_expr then
          match target.attribute_expr with
          | some a => (extract_raw_attributes_loop rest).map (fun r => a :: r)
          | none => none
        else extract_raw_attributes_loop rest
    | .matchStmt cases => extract_raw_attributes_loop (cases.flatten.reverse ++ rest)
    | .classDef _ _ body => extract_raw_attributes_loop (body.reverse ++ rest)
    | .functionDef _ _ _ _ body => extract_raw_attributes_loop (body.reverse ++ rest)
    | .tryStmt body => extract_raw_attributes_loop (body.reverse ++ rest)
    | .ifStmt body => extract_raw_attributes_loop (body.reverse ++ rest)
    | .withStmt body => extract_raw_attributes_loop (body.reverse ++ rest)
    | .assign targets =>
        match targets.head? with
        | none => none
        | some t =>
          match t.attribute_expr with
          | some a => (extract_raw_attributes_loop rest).map (fun r => a :: r)
          | none => none
    | .importStmt _ => extract_raw_attributes_loop rest
    | .importFrom _ _ => extract_raw_attributes_loop rest
    | .otherStmt => extract_raw_attributes_loop rest
termination_by stack => stmtsSize stack
decreasing_by
  all_goals simp [stmtsSize, stmtSize, stmtsSize_append, stmtsSize_reverse, stmtsSize_flatten]

/-- `extract_raw_attributes` (lines 79-115). -/
def extract_raw_attributes (init_function : StmtFunctionDef) : Option (List String) :=
  extract_raw_attributes_loop init_function.body.reverse

/-- The `filter_map(function_def_stmt)` view of a class body used throughout
`python_to_model.rs`. -/
def function_defs (c : StmtClassDef) : List StmtFunctionDef :=
  c.body.filterMap Stmt.function_def_stmt

/-- `extract_attributes` (lines 53-77); the outer `Option` is the panic from
`extract_raw_attributes`. -/
def extract_attributes (c : StmtClassDef) : Option (Option (List Variable)) :=
  match (function_defs c).find? (fun f => f.name == "__init__") with
  | none => some none
  | some init_function =>
    match extract_raw_attributes init_function with
    | none => none
    | some raw_attributes =>
      if !raw_attributes.isEmpty then
        some (some (raw_attributes.map
          (fun name => Variable.mk name (extract_visibility name) "")))
      else
        some none

/-- `does_function_have_decorator` (lines 236-243). -/
def does_function_have_decorator (f : StmtFunctionDef) (decorator_name : String) : Bool :=
  f.decorator_list.any (fun decorator =>
    match decorator.as_name_expr with
    | some id => id == decorator_name
    | none => false)

/-- The chained filters of `extract_methods` (lines 128-144). -/
def raw_methods (c : StmtClassDef) : List StmtFunctionDef :=
  ((((function_defs c).filter (fun f => !(f.name == "__init__"))).filter
      (fun f => !(does_function_have_decorator f "property"))).filter
      (fun f => !(does_function_have_decorator f "abstractmethod"))).filter
      (fun f => !(does_function_have_decorator f "staticmethod"))

/-- `extract_method_return_type` (lines 201-208). -/
def extract_method_return_type (method : StmtFunctionDef) : Option String :=
  match method.returns with
  | some ann =>
    match ann.as_name_expr with
    | some id => some id
    | none => none
  | none => none

/-- `extract_method_argument` (lines 185-199). -/
def extract_method_argument (argument : Parameter) : Variable :=
  let variable_type :=
    match argument.annot with
    | some ann =>
      match ann.as_name_expr with
      | some id => id
      | none => ""
    | none => ""
  Variable.mk argument.name (extract_visibility argument.name) variable_type

/-- `extract_method_arguments` (lines 155-183): the pushes happen in the order
`args`, `kwarg`, `kwonlyargs`, `posonlyargs`, `vararg`. -/
def extract_method_arguments (method : StmtFunctionDef) : Option (List Variable) :=
  let result :=
    method.parameters.args.map extract_method_argument
    ++ (match method.parameters.kwarg with
        | some a => [extract_method_argument a]
        | none => [])
    ++ method.parameters.kwonlyargs.map extract_method_argument
    ++ method.parameters.posonlyargs.map extract_method_argument
    ++ (match method.parameters.vararg with
        | some a => [extract_method_argument a]
        | none => [])
  if !result.isEmpty then some result else none

/-- `extract_method` (lines 146-153). -/
def extract_method (method : StmtFunctionDef) : Function :=
  Function.mk method.name (extract_visibility method.name)
    (extract_method_arguments method) (extract_method_return_type method)

/-- `extract_methods` (lines 128-144). -/
def extract_methods (c : StmtClassDef) : Option (List Function) :=
  if !(raw_methods c).isEmpty then some ((raw_methods c).map extract_method)
  else none

/-- The filter of `extract_properties` (lines 210-216). -/
def raw_properties (c : StmtClassDef) : List StmtFunctionDef :=
  (function_defs c).filter (fun f => does_function_have_decorator f "property")

/-- `extract_properties` (lines 210-234). -/
def extract_properties (c : StmtClassDef) : Option (List Variable) :=
  if !(raw_properties c).isEmpty then
    some ((raw_properties c).map (fun property =>
      Variable.mk property.name (extract_visibility property.name)
        ((extract_method_return_type property).getD "")))
  else none

/-- The filter of `extract_abstract_methods` (lines 245-251). -/
def raw_abstract_methods (c : StmtClassDef) : List StmtFunctionDef :=
  (function_defs c).filter (fun f => does_function_have_decorator f "abstractmethod")

/-- `extract_abstract_methods` (lines 245-258). -/
def extract_abstract_methods (c : StmtClassDef) : Option (List Function) :=
  if !(raw_abstract_methods c).isEmpty then
    some ((raw_abstract_methods c).map extract_method)
  else none

/-- The filter of `extract_static_methods` (lines 260-266). -/
def raw_static_methods (c : StmtClassDef) : List StmtFunctionDef :=
  (function_defs c).filter (fun f => does_function_have_decorator f "staticmethod")

/-- `extract_static_methods` (lines 260-273). -/
def extract_static_methods (c : StmtClassDef) : Option (List Function) :=
  if !(raw_static_methods c).isEmpty then
    some ((raw_static_methods c).map extract_method)
  else none

/-- `extract_parent_class` (lines 288-306). The result grid: `none` is the
panic of `value.as_name_expr().unwrap()` on a subscript whose value is not a
name; `some none` is the logged skip; `some (some id)` contributes a base. -/
def extract_parent_class (argument : Expr) : Option (Option String) :=
  if argument.is_name_expr then some argument.as_name_expr
  else if argument.is_subscript_expr then
    match argument.subscript_value with
    | some v =>
      match v.as_name_expr with
      | some id => some (some id)
      | none => none
    | none => none
  else some none

/-- The `filter_map(extract_parent_class).collect()` of lines 277-282, with
panic propagation. -/
def collect_parent_classes : List Expr → Option (List String)
  | [] => some []
  | e :: rest =>
    match extract_parent_class e with
    | none => none
    | some none => collect_parent_classes rest
    | some (some s) => (collect_parent_classes rest).map (fun r => s :: r)

/-- `extract_parent_classes` (lines 275-286). -/
def extract_parent_classes (c : StmtClassDef) : Option (Option (List String)) :=
  match c.arguments with
  | some args =>
    match collect_parent_classes args with
    | none => none
    | some parents => some (some parents)
  | none => some none

/-- `determine_class_type_from_parents` (lines 308-324). -/
def determine_class_type_from_parents (parents : List String) : ClassType :=
  if parents.any (fun p => p == "ABC" || p == "ABCMeta") then ClassType.ABSTRACT
  else if parents.any (fun p => p == "Enum" || p == "enum.Enum") then ClassType.ENUM
  else if parents.any (fun p => p == "Exception") then ClassType.EXCEPTION
  else ClassType.CLASS

/-- `extract_name` (lines 49-51). -/
def extract_name (c : StmtClassDef) : String :=
  c.name

/-- `generate_model` (lines 16-32); `none` models a panic inside parent-class
or attribute extraction. -/
def generate_model (c : StmtClassDef) : Option ClassModel :=
  match extract_parent_classes c with
  | none => none
  | some pcs =>
    let class_type :=
      match pcs with
      | some parents => determine_class_type_from_parents parents
      | none => ClassType.CLASS
    match extract_attributes c with
    | none => none
    | some attributes =>
      some (ClassModel.mk (extract_name c) attributes (extract_methods c)
        (extract_properties c) class_type (extract_static_methods c)
        (extract_abstract_methods c))

/-- `extract_classes` (lines 34-47). A file is modelled by the outcome of
parsing it: the external parser and the file read are outside the embedded
core, so the input is directly `parse(sourceText)`. -/
def extract_classes (parseResult : Except String (List Stmt)) :
    Except String (List StmtClassDef) :=
  match parseResult with
  | .ok body => .ok (body.filterMap Stmt.class_def_stmt)
  | .error e => .error ("Failed to parse Python file: " ++ e)

/-- `generate_models` (lines 7-14): `flat_map` over the per-file `Result`
iterates only the `Ok` payloads, so a parse failure contributes nothing. -/
def generate_models (filepaths : List (Except String (List Stmt))) :
    Option (List ClassModel) :=
  ((filepaths.filterMap (fun f =>
      match extract_classes f with
      | .ok cs => some cs
      | .error _ => none)).flatten).mapM generate_model

/-! ### src/utils/graph.rs

The two `HashMap`s of the Rust `Graph` are modelled by the insertion-ordered
node list (a node's id is its position, exactly the `len()` the code assigns)
and an association list with unique keys for the adjacency map. `get_nodes`
iteration is modelled in insertion order. -/

structure Graph (T : Type) where
  nodes : List T
  edges : List (Nat × List Nat)

namespace Graph

variable {T : Type} [DecidableEq T]

def new : Graph T :=
  ⟨[], []⟩

def is_node_in_graph (g : Graph T) (node : T) : Bool :=
  g.nodes.contains node

/-- A node's id under `node_to_id`: its insertion position. -/
def node_to_id (g : Graph T) (node : T) : Nat :=
  g.nodes.indexOf node

/-- `HashMap::get` on the adjacency map. -/
def edgesLookup (es : List (Nat × List Nat)) (k : Nat) : Option (List Nat) :=
  (es.find? (fun e => e.1 == k)).map (fun e => e.2)

def add_node (g : Graph T) (node : T) : Except String String × Graph T :=
  if !(g.is_node_in_graph node) then
    (.ok "Node added succesfully!", { g with nodes := g.nodes ++ [node] })
  else
    (.error "Node already in graph.", g)

def does_edge_exist (g : Graph T) (start finish : T) : Bool :=
  if !(g.is_node_in_graph start) || !(g.is_node_in_graph finish) then false
  else
    match edgesLookup g.edges (g.node_to_id start) with
    | none => false
    | some l => l.contains (g.node_to_id finish)

def add_edge (g : Graph T) (start finish : T) : Except String String × Graph T :=
  if !(g.is_node_in_graph start) then (.error "Start not in graph", g)
  else if !(g.is_node_in_graph finish) then (.error "End not in graph", g)
  else if g.does_edge_exist start finish then (.error "Edge already exists", g)
  else
    let start_id := g.node_to_id start
    let end_id := g.node_to_id finish
    let edges1 :=
      if (g.edges.find? (fun e => e.1 == start_id)).isSome then
        g.edges.map (fun e => if e.1 == start_id then (e.1, e.2 ++ [end_id]) else e)
      else
        g.edges ++ [(start_id, [end_id])]
    (.ok "Edge added successfully", { g with edges := edges1 })

/-- `get_edges`; edge ids always index existing nodes, so the fallback of the
total lookup is never reached on graphs built by the operations above. -/
def get_edges (g : Graph T) (node : T) : Except String (List T) :=
  if !(g.is_node_in_graph node) then .error "Node not in graph"
  else
    match edgesLookup g.edges (g.node_to_id node) with
    | some es => .ok (es.map (fun id => (g.nodes.get? id).getD node))
    | none => .error "No edges found"

def get_nodes (g : Graph T) : List T :=
  g.nodes

end Graph

/-! ### src/dependency_graph/module.rs -/

structure PythonModule where
  name : String
  packages : List String
  deriving DecidableEq, Repr

def PythonModule.new (name : String) (packages : List String) : PythonModule :=
  ⟨name, packages⟩

/-! ### The filesystem collaborator. `is_dir` and `is_file` queries are always
made on paths under the project root, so a filesystem is modelled by those two
predicates on root-relative segment lists. -/

structure FileSystem where
  isDir : List String → Bool
  isFile : List String → Bool

/-! ### src/dependency_graph/python_utils.rs -/

/-- `split_import` (lines 9-11). -/
def split_import (imp : String) : List String :=
  strSplit '.' imp

/-- `is_import_internal` (lines 3-7): `split_import` never returns an empty
vector, so the `[0]` index is total. -/
def is_import_internal (imp : String) (fs : FileSystem) : Bool :=
  fs.isDir [(split_import imp).headD ""]

/-- The left-to-right walk of `extract_module_name_from_import`
(lines 21-30). -/
def emni_walk (fs : FileSystem) : List String → List String → List String
  | [], _ => []
  | part :: rest, current_path =>
    let current_path_as_file := current_path ++ [part ++ ".py"]
    let current_path1 := current_path ++ [part]
    if fs.isDir current_path1 || fs.isFile current_path_as_file then
      part :: emni_walk fs rest current_path1
    else []

/-- `extract_module_name_from_import` (lines 13-33). -/
def extract_module_name_from_import (imp : String) (fs : FileSystem) : String :=
  joinDot (emni_walk fs (split_import imp) [])

/-! ### src/python_to_graph.rs

A discovered source file is modelled by its stem, its parent directory
relative to the project root (the `to_str` of `strip_prefix(root).parent()`),
and its parse outcome. A `HashSet` is modelled as a duplicate-free list in
first-insertion order. -/

def hsInsert {α : Type} [DecidableEq α] (l : List α) (x : α) : List α :=
  if x ∈ l then l else l ++ [x]

def hsExtend {α : Type} [DecidableEq α] (l : List α) (xs : List α) : List α :=
  xs.foldl hsInsert l

def hsOfList {α : Type} [DecidableEq α] (xs : List α) : List α :=
  hsExtend [] xs

structure SourceFile where
  stem : String
  relParentDir : String
  parse : Except String (List Stmt)

/-- `extract_packages` (lines 38-51), applied to the already-relativized
parent-directory string. -/
def extract_packages (relParentDir : String) : List String :=
  strSplit '/' relParentDir

/-- `extract_names` (lines 66-91), with the two import-statement extractors
(lines 93-117) inlined at their guarded call sites. -/
def extract_names (item : Stmt) (fs : FileSystem) : List PythonModule :=
  let names : List String :=
    match item with
    | .importFrom module aliases =>
      match module with
      | none => []
      | some m => hsOfList (aliases.map (fun aliasName => m ++ "." ++ aliasName))
    | .importStmt imports => hsOfList imports
    | _ => []
  hsOfList
    (((((names.map (fun name => extract_module_name_from_import name fs)).filter
        (fun name => is_import_internal name fs)).map split_import).map
        (fun parts => PythonModule.new (parts.getLastD "") parts.dropLast)).filter
        (fun module => !(module.name == "")))

/-- `get_all_dependencies` (lines 53-64): `none` models the Rust panic of
`parse_module(&content).unwrap()` on a parse failure. -/
def get_all_dependencies (parseResult : Except String (List Stmt))
    (fs : FileSystem) : Option (List PythonModule) :=
  match parseResult with
  | .error _ => none
  | .ok body => some (body.foldl (fun names item => hsExtend names (extract_names item fs)) [])

/-- The per-file body of `build_dependency_graph` (lines 13-29). -/
def bdg_loop (fs : FileSystem) : List SourceFile → Graph PythonModule →
    Option (Graph PythonModule)
  | [], g => some g
  | f :: rest, g =>
    let module := PythonModule.new f.stem (extract_packages f.relParentDir)
    let g1 := (g.add_node module).2
    match get_all_dependencies f.parse fs with
    | none => none
    | some deps =>
      let g2 := deps.foldl (fun acc dependency =>
        let acc1 :=
          if acc.is_node_in_graph dependency then acc
          else (acc.add_node dependency).2
        (acc1.add_edge module dependency).2) g1
      bdg_loop fs rest g2

/-- `build_dependency_graph` (lines 10-32): `none` models the panic of the
dependency walk on a parse failure. -/
def build_dependency_graph (files : List SourceFile) (fs : FileSystem) :
    Option (Graph PythonModule) :=
  bdg_loop fs files Graph.new

/-! ### src/utils/tree.rs -/

inductive TreeNode where
  | mk (value : String) (children : List TreeNode)

def TreeNode.value : TreeNode → String
  | .mk v _ => v

def TreeNode.children : TreeNode → List TreeNode
  | .mk _ cs => cs

def TreeNode.new (value : String) : TreeNode :=
  .mk value []

/-- `insert` (lines 45-66). The Rust loop inserts into every child whose value
matches the head segment (at most one, since a new child is only appended when
none matched), else appends a fresh child and descends into it. -/
def insert : TreeNode → List String → TreeNode
  | root, [] => root
  | .mk v cs, top :: rest =>
    if cs.any (fun c => c.value == top) then
      .mk v (cs.map (fun c => if c.value == top then insert c rest else c))
    else
      .mk v (cs ++ [insert (.mk top []) rest])
termination_by _ parts => parts.length

/-! ### src/graph_to_uml.rs -/

mutual

/-- The leaf values emitted by `declare_modules_into_packages` (lines 86-105)
in its traversal order: children are visited with `.iter().rev()`, and only
childless nodes emit their value. -/
def leaves : TreeNode → List String
  | .mk v [] => [v]
  | .mk _ (c :: cs) => leavesListRev (c :: cs)

def leavesListRev : List TreeNode → List String
  | [] => []
  | c :: cs => leavesListRev cs ++ leaves c

end

/-- The path segments inserted for a graph node by
`build_tree_from_dependency_graph`: the packages without empty segments,
followed by the module name. -/
def modulePath (node : PythonModule) : List String :=
  (node.packages.filter (fun item => !(item == ""))) ++ [node.name]

/-- `build_tree_from_dependency_graph` (lines 68-84). -/
def build_tree_from_dependency_graph (g : Graph PythonModule) : TreeNode :=
  g.get_nodes.foldl (fun root node => insert root (modulePath node))
    (TreeNode.new "pygrader")

mutual

/-- Specification helper: the value-paths from a node down to each of its
leaves, in child order (the node's own value excluded; a childless node
contributes the empty path). -/
def lp : TreeNode → List (List String)
  | .mk _ [] => [[]]
  | .mk _ (c :: cs) => lpList (c :: cs)

def lpList : List TreeNode → List (List String)
  | [] => []
  | c :: cs => (lp c).map (fun q => c.value :: q) ++ lpList cs

end

mutual

/-- Specification helper: sibling values are duplicate-free at every level,
the invariant `insert` maintains and relies on to descend into at most one
child. -/
def wfTree : TreeNode → Prop
  | .mk _ cs => (cs.map TreeNode.value).Nodup ∧ wfList cs

def wfList : List TreeNode → Prop
  | [] => True
  | c :: cs => wfTree c ∧ wfList cs

end

/-! ## Claim theorems -/

/-! ### C1: visibility inference -/

theorem startsWith_double_underscore {name : String}
    (h : strStartsWith name "__" = true) : strStartsWith name "_" = true := by
  simp [strStartsWith, List.isPrefixOf_iff_prefix] at h ⊢
  exact List.IsPrefix.trans ⟨['_'], rfl⟩ h

/-- C1 counterexample: the claim maps the dunder name "__x__" to PUBLIC, but
`extract_visibility` sends it to the `starts_with("_")` branch and returns
PROTECTED. -/
theorem C1_counterexample :
    extract_visibility "__x__" = Visibility.PROTECTED
    ∧ extract_visibility "__x__" ≠ Visibility.PUBLIC := by
  constructor
  · decide
  · decide

/-- C1 (amended): visibility is a pure function of the name string: a name
starting with two underscores and not also ending with two underscores maps to
PRIVATE; any other name starting with an underscore (including dunder names
such as "__x__") maps to PROTECTED; a name not starting with an underscore
maps to PUBLIC. Dunder names are never private, but they are PROTECTED, not
PUBLIC. -/
theorem C1_extract_visibility_spec (name : String) :
    (strStartsWith name "__" = true → strEndsWith name "__" = false →
      extract_visibility name = Visibility.PRIVATE)
    ∧ (strStartsWith name "_" = true →
        (strStartsWith name "__" = false ∨ strEndsWith name "__" = true) →
        extract_visibility name = Visibility.PROTECTED)
    ∧ (strStartsWith name "_" = false →
        extract_visibility name = Visibility.PUBLIC) := by
  refine ⟨fun h1 h2 => ?_, fun h1 h2 => ?_, fun h1 => ?_⟩
  · simp [extract_visibility, h1, h2]
  · rcases h2 with h2 | h2 <;> simp [extract_visibility, h1, h2]
  · have h2 : strStartsWith name "__" = false := by
      cases hc : strStartsWith name "__"
      · rfl
      · rw [startsWith_double_underscore hc] at h1
        simp at h1
    simp [extract_visibility, h1, h2]

/-- C1 witness: the amended rule evaluated at "__x", "_x", "__x__" and "x". -/
theorem C1_witness :
    extract_visibility "__x" = Visibility.PRIVATE
    ∧ extract_visibility "_x" = Visibility.PROTECTED
    ∧ extract_visibility "__x__" = Visibility.PROTECTED
    ∧ extract_visibility "x" = Visibility.PUBLIC :=
  ⟨(C1_extract_visibility_spec "__x").1 (by decide) (by decide),
   (C1_extract_visibility_spec "_x").2.1 (by decide) (Or.inl (by decide)),
   (C1_extract_visibility_spec "__x__").2.1 (by decide) (Or.inr (by decide)),
   (C1_extract_visibility_spec "x").2.2 (by decide)⟩

/-! ### C2: method categorization -/

/-- C2 counterexample: a method decorated with both `property` and
`abstractmethod` is collected by `extract_properties` and by
`extract_abstract_methods`, so the four categories are not a partition and no
priority order is applied. -/
theorem C2_counterexample :
    extract_properties
        (StmtClassDef.mk "C" none
          [Stmt.functionDef "m" [Expr.nameExpr "property", Expr.nameExpr "abstractmethod"]
            (Parameters.mk [] [] none [] none) none []])
      = some [Variable.mk "m" Visibility.PUBLIC ""]
    ∧ extract_abstract_methods
        (StmtClassDef.mk "C" none
          [Stmt.functionDef "m" [Expr.nameExpr "property", Expr.nameExpr "abstractmethod"]
            (Parameters.mk [] [] none [] none) none []])
      = some [Function.mk "m" Visibility.PUBLIC none none] := by
  constructor
  · decide
  · decide

/-- C2 (amended): the four categories are independent filters over the class
body's function definitions, not a partition: a function is collected as a
property iff it carries a `property` marker, as abstract iff it carries an
`abstractmethod` marker, as static iff it carries a `staticmethod` marker, and
as a plain method iff it is not the constructor and carries none of the three
markers; a function with several markers appears in every matching category. -/
theorem C2_method_categorization (c : StmtClassDef) (f : StmtFunctionDef) :
    (f ∈ raw_properties c ↔
      f ∈ function_defs c ∧ does_function_have_decorator f "property" = true)
    ∧ (f ∈ raw_abstract_methods c ↔
      f ∈ function_defs c ∧ does_function_have_decorator f "abstractmethod" = true)
    ∧ (f ∈ raw_static_methods c ↔
      f ∈ function_defs c ∧ does_function_have_decorator f "staticmethod" = true)
    ∧ (f ∈ raw_methods c ↔
      f ∈ function_defs c ∧ f.name ≠ "__init__"
      ∧ does_function_have_decorator f "property" = false
      ∧ does_function_have_decorator f "abstractmethod" = false
      ∧ does_function_have_decorator f "staticmethod" = false) := by
  refine ⟨?_, ?_, ?_, ?_⟩
  · simp [raw_properties, List.mem_filter]
  · simp [raw_abstract_methods, List.mem_filter]
  · simp [raw_static_methods, List.mem_filter]
  · simp [raw_methods, List.mem_filter]
    tauto

/-! ### C8: argument collection order -/

/-- C8 counterexample: for a method with one positional-only parameter `p` and
a variadic-keyword parameter `k`, the code emits `k` before `p`, so the
claimed order (positional-only before variadic-keyword) fails. -/
theorem C8_counterexample :
    extract_method_arguments
        (StmtFunctionDef.mk "f" []
          (Parameters.mk [Parameter.mk "p" none] [] none [] (some (Parameter.mk "k" none)))
          none [])
      = some [Variable.mk "k" Visibility.PUBLIC "", Variable.mk "p" Visibility.PUBLIC ""]
    ∧ extract_method_arguments
        (StmtFunctionDef.mk "f" []
          (Parameters.mk [Parameter.mk "p" none] [] none [] (some (Parameter.mk "k" none)))
          none [])
      ≠ some [Variable.mk "p" Visibility.PUBLIC "", Variable.mk "k" Visibility.PUBLIC ""] := by
  constructor
  · decide
  · decide

/-- C8 (amended): argument Variables are collected from the parameter groups
in the order positional, variadic-keyword, keyword-only, positional-only,
variadic-positional, each group contributing its entries in order, and the
result is absent exactly when every group is empty. -/
theorem C8_extract_method_arguments_order (method : StmtFunctionDef) :
    match extract_method_arguments method with
    | some l =>
        l = method.parameters.args.map extract_method_argument
            ++ method.parameters.kwarg.toList.map extract_method_argument
            ++ method.parameters.kwonlyargs.map extract_method_argument
            ++ method.parameters.posonlyargs.map extract_method_argument
            ++ method.parameters.vararg.toList.map extract_method_argument
    | none =>
        method.parameters.args = [] ∧ method.parameters.kwarg = none
        ∧ method.parameters.kwonlyargs = [] ∧ method.parameters.posonlyargs = []
        ∧ method.parameters.vararg = none := by
  rcases method with ⟨n, d, ⟨pos, args, va, kw, kwa⟩, r, b⟩
  simp only [extract_method_arguments]
  split
  · cases va <;> cases kwa <;> simp_all [Option.toList]
  · cases va <;> cases kwa <;> simp_all [Option.toList]

/-! ### C9: import internality test -/

/-- C9: the internality test classifies an import as internal iff a directory
named after the dotted path's first segment exists directly under the project
root; a root-level `.py` file with no such directory is classified external. -/
theorem C9_is_import_internal_spec (imp : String) (fs : FileSystem) :
    is_import_internal imp fs = fs.isDir [(split_import imp).headD ""]
    ∧ (fs.isDir [(split_import imp).headD ""] = false →
        fs.isFile [(split_import imp).headD "" ++ ".py"] = true →
        is_import_internal imp fs = false) := by
  exact ⟨rfl, fun h _ => h⟩

/-- C9 witness: on a filesystem with no directories and a root-level file
`utils.py`, the import "utils.helpers" is classified external. -/
theorem C9_witness :
    is_import_internal "utils.helpers"
      (FileSystem.mk (fun _ => false) (fun p => p == ["utils.py"])) = false :=
  (C9_is_import_internal_spec "utils.helpers"
      (FileSystem.mk (fun _ => false) (fun p => p == ["utils.py"]))).2
    (by decide) (by decide)

/-! ### C10: root-level files get a one-element packages list -/

/-- C10: a source file directly in the project root (empty relative directory
path) yields a PythonModule whose packages list is the one-element list
containing the empty string, never the empty list, so it can never equal an
import-derived PythonModule built with an empty packages list. -/
theorem C10_root_file_packages (f : SourceFile) (h : f.relParentDir = "")
    (n : String) :
    (PythonModule.new f.stem (extract_packages f.relParentDir)).packages = [""]
    ∧ PythonModule.new f.stem (extract_packages f.relParentDir)
        ≠ PythonModule.new n [] := by
  rw [h]
  have hsplit : extract_packages "" = [""] := by decide
  constructor
  · simp [PythonModule.new, hsplit]
  · intro hc
    have hp := congrArg PythonModule.packages hc
    simp [PythonModule.new, hsplit] at hp

/-- C10 witness: evaluated at a concrete root-level file. -/
theorem C10_witness :
    (PythonModule.new "main" (extract_packages "")).packages = [""]
    ∧ PythonModule.new "main" (extract_packages "") ≠ PythonModule.new "main" [] :=
  C10_root_file_packages (SourceFile.mk "main" "" (Except.ok [])) rfl "main"

/-! ### C4: bare assignment targets in a constructor body -/

/-- C4: at the failing input — a constructor whose body is the single plain
assignment `x = 1` with a non-attribute target — the `Assign` arm of
`extract_raw_attributes` calls `.attribute_expr().unwrap()` unguarded and
panics (modelled by `none`), instead of skipping the construct; an attribute
assignment in the same position extracts normally, and the guarded
`AugAssign` arm does skip a bare target. -/
theorem C4_bare_assign_target_panics :
    extract_raw_attributes
        (StmtFunctionDef.mk "__init__" [] (Parameters.mk [] [] none [] none) none
          [Stmt.assign [Expr.nameExpr "x"]])
      = none
    ∧ extract_raw_attributes
        (StmtFunctionDef.mk "__init__" [] (Parameters.mk [] [] none [] none) none
          [Stmt.assign [Expr.attributeExpr (Expr.nameExpr "self") "x"]])
      = some ["x"]
    ∧ extract_raw_attributes
        (StmtFunctionDef.mk "__init__" [] (Parameters.mk [] [] none [] none) none
          [Stmt.augAssign (Expr.nameExpr "x"),
           Stmt.assign [Expr.attributeExpr (Expr.nameExpr "self") "y"]])
      = some ["y"] := by
  refine ⟨?_, ?_, ?_⟩ <;>
    simp [extract_raw_attributes, extract_raw_attributes_loop,
      Expr.is_attribute_expr, Expr.attribute_expr]

/-! ### C3: parse failures -/

/-- C3 counterexample: in the dependency-graph path a parse failure is not
recovered from — `get_all_dependencies` unwraps the parse result and panics
(modelled by `none`), and `build_dependency_graph` aborts with it. -/
theorem C3_counterexample :
    get_all_dependencies (Except.error "invalid syntax")
        (FileSystem.mk (fun _ => false) (fun _ => false)) = none
    ∧ build_dependency_graph
        [SourceFile.mk "bad" "" (Except.error "invalid syntax")]
        (FileSystem.mk (fun _ => false) (fun _ => false)) = none := by
  exact ⟨rfl, rfl⟩

/-- C3 (amended): a file whose text cannot be parsed is recovered from by
skipping it in the class-diagram path (`generate_models` is unchanged by
removing the failing file), but in the dependency-graph path
(`get_all_dependencies`, hence `build_dependency_graph`) a parse failure
panics and aborts the run. -/
theorem C3_parse_failure_policy (pre post : List (Except String (List Stmt)))
    (e : String) (fs : FileSystem) :
    generate_models (pre ++ [Except.error e] ++ post) = generate_models (pre ++ post)
    ∧ get_all_dependencies (Except.error e) fs = none := by
  constructor
  · simp [generate_models, List.filterMap_append, extract_classes]
  · rfl

/-! ### C5 and C7: graph operation lemmas -/

/-- The adjacency-map update performed by a successful `add_edge`: push onto
the existing entry, or insert a fresh singleton entry. -/
def updateEdges (es : List (Nat × List Nat)) (sid eid : Nat) : List (Nat × List Nat) :=
  if (es.find? (fun e => e.1 == sid)).isSome then
    es.map (fun e => if e.1 == sid then (e.1, e.2 ++ [eid]) else e)
  else es ++ [(sid, [eid])]

theorem edgesLookup_cons_pos (hd : Nat × List Nat) (rest : List (Nat × List Nat))
    (sid : Nat) (h : (hd.1 == sid) = true) :
    Graph.edgesLookup (hd :: rest) sid = some hd.2 := by
  unfold Graph.edgesLookup
  rw [List.find?_cons_of_pos rest h]
  rfl

theorem edgesLookup_cons_neg (hd : Nat × List Nat) (rest : List (Nat × List Nat))
    (sid : Nat) (h : (hd.1 == sid) = false) :
    Graph.edgesLookup (hd :: rest) sid = Graph.edgesLookup rest sid := by
  unfold Graph.edgesLookup
  rw [List.find?_cons_of_neg rest (by simp [h])]

theorem edgesLookup_updateEdges (es : List (Nat × List Nat)) (sid eid : Nat) :
    Graph.edgesLookup (updateEdges es sid eid) sid
      = some ((Graph.edgesLookup es sid).getD [] ++ [eid]) := by
  induction es with
  | nil =>
    unfold updateEdges
    rw [if_neg (by simp)]
    rw [List.nil_append, edgesLookup_cons_pos (sid, [eid]) [] sid (by simp)]
    rfl
  | cons hd rest ih =>
    cases hbk : (hd.1 == sid) with
    | true =>
      have hfind : ((hd :: rest).find? (fun e => e.1 == sid)).isSome = true := by
        rw [List.find?_cons_of_pos rest hbk]
        rfl
      unfold updateEdges
      rw [if_pos hfind, List.map_cons]
      have hhd : (if hd.1 == sid then (hd.1, hd.2 ++ [eid]) else hd)
          = (hd.1, hd.2 ++ [eid]) := by
        rw [hbk]
        rfl
      rw [hhd, edgesLookup_cons_pos (hd.1, hd.2 ++ [eid]) _ sid hbk,
        edgesLookup_cons_pos hd rest sid hbk]
      rfl
    | false =>
      have hfind : (hd :: rest).find? (fun e => e.1 == sid)
          = rest.find? (fun e => e.1 == sid) :=
        List.find?_cons_of_neg rest (by simp [hbk])
      unfold updateEdges
      rw [hfind, edgesLookup_cons_neg hd rest sid hbk]
      by_cases hrest : (rest.find? (fun e => e.1 == sid)).isSome = true
      · rw [if_pos hrest, List.map_cons]
        have hhd : (if hd.1 == sid then (hd.1, hd.2 ++ [eid]) else hd) = hd := by
          rw [hbk]
          rfl
        rw [hhd, edgesLookup_cons_neg hd _ sid hbk]
        have ih2 := ih
        unfold updateEdges at ih2
        rw [if_pos hrest] at ih2
        exact ih2
      · rw [if_neg hrest, List.cons_append, edgesLookup_cons_neg hd _ sid hbk]
        have ih2 := ih
        unfold updateEdges at ih2
        rw [if_neg hrest] at ih2
        exact ih2

theorem Graph.does_edge_exist_of_mem {T : Type} [DecidableEq T] (g2 : Graph T)
    (a b : T) (ha : g2.is_node_in_graph a = true) (hb : g2.is_node_in_graph b = true)
    (l : List Nat) (hl : Graph.edgesLookup g2.edges (g2.node_to_id a) = some l)
    (hmem : g2.node_to_id b ∈ l) :
    g2.does_edge_exist a b = true := by
  have h1 : (!g2.is_node_in_graph a) = false := by rw [ha]; rfl
  have h2 : (!g2.is_node_in_graph b) = false := by rw [hb]; rfl
  unfold Graph.does_edge_exist
  rw [h1, h2, hl]
  rw [if_neg (by decide : ¬((false || false) = true))]
  show l.contains (g2.node_to_id b) = true
  exact List.elem_eq_true_of_mem hmem

theorem Graph.add_edge_success {T : Type} [DecidableEq T] (g : Graph T) (a b : T)
    (ha : g.is_node_in_graph a = true) (hb : g.is_node_in_graph b = true)
    (hne : g.does_edge_exist a b = false) :
    g.add_edge a b = (.ok "Edge added successfully",
      Graph.mk g.nodes (updateEdges g.edges (g.node_to_id a) (g.node_to_id b)))
    ∧ (Graph.mk g.nodes
        (updateEdges g.edges (g.node_to_id a) (g.node_to_id b))).does_edge_exist a b
      = true := by
  have h1 : (!g.is_node_in_graph a) = false := by rw [ha]; rfl
  have h2 : (!g.is_node_in_graph b) = false := by rw [hb]; rfl
  have hff : ¬(false = true) := by decide
  constructor
  · unfold Graph.add_edge
    rw [h1, h2, hne, if_neg hff, if_neg hff, if_neg hff]
    rfl
  · exact Graph.does_edge_exist_of_mem _ a b ha hb _
      (edgesLookup_updateEdges g.edges (g.node_to_id a) (g.node_to_id b))
      (List.mem_append_right _ (List.mem_singleton_self _))

/-- C5: `add_edge(a, b)` fails with an endpoint-missing error when either
endpoint is absent, succeeds when both are present and the edge is new, and a
second `add_edge(a, b)` on an existing edge reports a duplicate error; in
every failing case the graph state (hence `edges_of(a)`) is unchanged. -/
theorem C5_add_edge_spec {T : Type} [DecidableEq T] (g : Graph T) (a b : T) :
    ((g.is_node_in_graph a = false ∨ g.is_node_in_graph b = false) →
      (g.add_edge a b).2 = g
      ∧ ((g.add_edge a b).1 = .error "Start not in graph"
          ∨ (g.add_edge a b).1 = .error "End not in graph"))
    ∧ (g.is_node_in_graph a = true → g.is_node_in_graph b = true →
        g.does_edge_exist a b = false →
        ∃ g2, g.add_edge a b = (.ok "Edge added successfully", g2)
          ∧ g2.add_edge a b = (.error "Edge already exists", g2))
    ∧ (g.does_edge_exist a b = true →
        g.add_edge a b = (.error "Edge already exists", g)) := by
  refine ⟨?_, ?_, ?_⟩
  · rintro (h | h)
    · simp [Graph.add_edge, h]
    · by_cases ha : g.is_node_in_graph a <;> simp [Graph.add_edge, ha, h]
  · intro ha hb hne
    obtain ⟨hstep, hexists⟩ := Graph.add_edge_success g a b ha hb hne
    refine ⟨Graph.mk g.nodes (updateEdges g.edges (g.node_to_id a) (g.node_to_id b)),
      hstep, ?_⟩
    have ha2 : (Graph.mk g.nodes
        (updateEdges g.edges (g.node_to_id a) (g.node_to_id b))).is_node_in_graph a
        = true := ha
    have hb2 : (Graph.mk g.nodes
        (updateEdges g.edges (g.node_to_id a) (g.node_to_id b))).is_node_in_graph b
        = true := hb
    have h1 : (!(Graph.mk g.nodes
        (updateEdges g.edges (g.node_to_id a) (g.node_to_id b))).is_node_in_graph a)
        = false := by rw [ha2]; rfl
    have h2 : (!(Graph.mk g.nodes
        (updateEdges g.edges (g.node_to_id a) (g.node_to_id b))).is_node_in_graph b)
        = false := by rw [hb2]; rfl
    have hff : ¬(false = true) := by decide
    unfold Graph.add_edge
    rw [h1, h2, hexists, if_neg hff, if_neg hff, if_pos (rfl : (true : Bool) = true)]
  · intro hdup
    have ha : g.is_node_in_graph a = true := by
      by_contra hc
      simp only [Bool.not_eq_true] at hc
      simp [Graph.does_edge_exist, hc] at hdup
    have hb : g.is_node_in_graph b = true := by
      by_contra hc
      simp only [Bool.not_eq_true] at hc
      simp [Graph.does_edge_exist, hc] at hdup
    simp [Graph.add_edge, ha, hb, hdup]

/-- C5 witness: the three cases of the spec evaluated on concrete graphs over
Nat — missing endpoint, fresh edge then duplicate, and an existing edge. -/
theorem C5_witness :
    ((Graph.mk ([] : List Nat) []).add_edge 0 1).2 = Graph.mk [] []
    ∧ ((Graph.mk [0, 1] ([] : List (Nat × List Nat))).add_edge 0 1).1
        = Except.ok "Edge added successfully"
    ∧ (Graph.mk [0, 1] [(0, [1])]).add_edge 0 1
        = (Except.error "Edge already exists", Graph.mk [0, 1] [(0, [1])]) := by
  refine ⟨((C5_add_edge_spec (Graph.mk [] []) 0 1).1 (Or.inl (by decide))).1, ?_,
    (C5_add_edge_spec (Graph.mk [0, 1] [(0, [1])]) 0 1).2.2 (by decide)⟩
  obtain ⟨g2, h1, h2⟩ :=
    (C5_add_edge_spec (Graph.mk [0, 1] []) 0 1).2.1 (by decide) (by decide) (by decide)
  rw [h1]

/-- C7 counterexample: a node that is in the graph but has no outgoing edges
makes `get_edges` return the error "No edges found", so the node-missing error
is not the only error outcome for present nodes. -/
theorem C7_counterexample :
    (((Graph.new : Graph Nat).add_node 0).2).is_node_in_graph 0 = true
    ∧ (((Graph.new : Graph Nat).add_node 0).2).get_edges 0
        = Except.error "No edges found" := by
  constructor
  · decide
  · rfl

/-- C7 (amended): `get_edges(n)` errors with "Node not in graph" when `n` is
absent; when `n` is present it returns the successor list if the adjacency map
has an entry for `n`, and errors with "No edges found" when `n` has no entry
(no outgoing edges). -/
theorem C7_get_edges_spec {T : Type} [DecidableEq T] (g : Graph T) (n : T) :
    (g.is_node_in_graph n = false → g.get_edges n = .error "Node not in graph")
    ∧ (g.is_node_in_graph n = true →
        match Graph.edgesLookup g.edges (g.node_to_id n) with
        | some es => g.get_edges n = .ok (es.map (fun id => (g.nodes.get? id).getD n))
        | none => g.get_edges n = .error "No edges found") := by
  constructor
  · intro h
    simp [Graph.get_edges, h]
  · intro h
    cases hl : Graph.edgesLookup g.edges (g.node_to_id n) <;>
      simp [Graph.get_edges, h, hl]

/-- C7 witness: the amended spec evaluated at a missing node, a present node
without outgoing edges, and a present node with one outgoing self edge. -/
theorem C7_witness :
    (Graph.mk ([] : List Nat) []).get_edges 0 = Except.error "Node not in graph"
    ∧ (Graph.mk [0] ([] : List (Nat × List Nat))).get_edges 0
        = Except.error "No edges found"
    ∧ (Graph.mk [0] [(0, [0])]).get_edges 0 = Except.ok [0] :=
  ⟨(C7_get_edges_spec (Graph.mk [] []) 0).1 (by decide),
   (C7_get_edges_spec (Graph.mk [0] []) 0).2 (by decide),
   (C7_get_edges_spec (Graph.mk [0] [(0, [0])]) 0).2 (by decide)⟩

/-! ### C6: package-tree round trip -/

theorem TreeNode.value_mk (v : String) (cs : List TreeNode) :
    (TreeNode.mk v cs).value = v := rfl

theorem insert_nil (t : TreeNode) : insert t [] = t := by
  simp [insert]

theorem value_insert (t : TreeNode) (p : List String) :
    (insert t p).value = t.value := by
  obtain ⟨v, cs⟩ := t
  cases p with
  | nil => rw [insert_nil]
  | cons a rest =>
    rw [insert]
    by_cases h : cs.any (fun c => c.value == a) = true
    · rw [if_pos h]
      rfl
    · rw [if_neg h]
      rfl

theorem lp_leaf (v : String) : lp (TreeNode.mk v []) = [[]] := by
  simp [lp]

theorem lp_of_ne_nil (v : String) (cs : List TreeNode) (h : cs ≠ []) :
    lp (TreeNode.mk v cs) = lpList cs := by
  cases cs with
  | nil => exact absurd rfl h
  | cons c rest => simp [lp]

theorem lpList_nil : lpList [] = [] := by
  simp [lpList]

theorem lpList_cons (c : TreeNode) (cs : List TreeNode) :
    lpList (c :: cs) = (lp c).map (fun q => c.value :: q) ++ lpList cs := by
  simp [lpList]

theorem lpList_append (xs ys : List TreeNode) :
    lpList (xs ++ ys) = lpList xs ++ lpList ys := by
  induction xs with
  | nil => simp [lpList]
  | cons c rest ih => simp [lpList_cons, ih]

theorem lp_ne_nil : ∀ t : TreeNode, lp t ≠ []
  | .mk v [] => by simp [lp_leaf]
  | .mk v (c :: cs) => by
    have h := lp_ne_nil c
    rw [lp_of_ne_nil v (c :: cs) (by simp), lpList_cons]
    intro hc
    rw [List.append_eq_nil] at hc
    exact h (List.map_eq_nil_iff.mp hc.1)

theorem mem_lpList (s : List String) (cs : List TreeNode) :
    s ∈ lpList cs ↔ ∃ c ∈ cs, ∃ q ∈ lp c, s = c.value :: q := by
  induction cs with
  | nil => simp [lpList_nil]
  | cons c rest ih =>
    rw [lpList_cons]
    simp only [List.mem_append, List.mem_map, ih, List.mem_cons]
    constructor
    · rintro (⟨q, hq, rfl⟩ | ⟨c2, hc2, q, hq, rfl⟩)
      · exact ⟨c, Or.inl rfl, q, hq, rfl⟩
      · exact ⟨c2, Or.inr hc2, q, hq, rfl⟩
    · rintro ⟨c2, hc2 | hc2, q, hq, rfl⟩
      · subst hc2
        exact Or.inl ⟨q, hq, rfl⟩
      · exact Or.inr ⟨c2, hc2, q, hq, rfl⟩

theorem wfTree_iff (v : String) (cs : List TreeNode) :
    wfTree (TreeNode.mk v cs) ↔ (cs.map TreeNode.value).Nodup ∧ wfList cs := by
  simp [wfTree]

theorem wfList_iff (cs : List TreeNode) :
    wfList cs ↔ ∀ c ∈ cs, wfTree c := by
  induction cs with
  | nil => simp [wfList]
  | cons c rest ih => simp [wfList, ih]

theorem wf_insert (p : List String) : ∀ t : TreeNode, wfTree t → wfTree (insert t p) := by
  induction p with
  | nil =>
    intro t h
    rw [insert_nil]
    exact h
  | cons a rest ih =>
    intro t h
    obtain ⟨v, cs⟩ := t
    rw [wfTree_iff] at h
    obtain ⟨hnd, hwl⟩ := h
    rw [insert]
    by_cases hany : cs.any (fun c => c.value == a) = true
    · rw [if_pos hany, wfTree_iff]
      constructor
      · have hvals : (cs.map (fun c => if c.value == a then insert c rest else c)).map
            TreeNode.value = cs.map TreeNode.value := by
          rw [List.map_map]
          apply List.map_congr_left
          intro c _
          by_cases hv : (c.value == a) = true
          · simp only [Function.comp_apply, if_pos hv, value_insert]
          · simp only [Function.comp_apply, if_neg hv]
        rw [hvals]
        exact hnd
      · rw [wfList_iff]
        intro c2 hc2
        rw [List.mem_map] at hc2
        obtain ⟨c, hc, rfl⟩ := hc2
        by_cases hv : (c.value == a) = true
        · rw [if_pos hv]
          exact ih c ((wfList_iff cs).mp hwl c hc)
        · rw [if_neg hv]
          exact (wfList_iff cs).mp hwl c hc
    · rw [if_neg hany, wfTree_iff]
      have hno : ∀ c ∈ cs, c.value ≠ a := by
        intro c hc hv
        exact hany (List.any_eq_true.mpr ⟨c, hc, by simp [hv]⟩)
      constructor
      · rw [List.map_append,
          show List.map TreeNode.value [insert (TreeNode.mk a []) rest] = [a] from by
            simp [value_insert, TreeNode.value_mk],
          List.nodup_append]
        refine ⟨hnd, List.nodup_singleton a, ?_⟩
        intro x hx hxa
        rw [List.mem_singleton] at hxa
        subst hxa
        rw [List.mem_map] at hx
        obtain ⟨c, hc, hcv⟩ := hx
        exact hno c hc hcv
      · rw [wfList_iff]
        intro c2 hc2
        rw [List.mem_append] at hc2
        rcases hc2 with hc2 | hc2
        · exact (wfList_iff cs).mp hwl c2 hc2
        · rw [List.mem_singleton] at hc2
          subst hc2
          apply ih
          rw [wfTree_iff]
          exact ⟨by simp, by simp [wfList]⟩

theorem lp_insert_fresh (p : List String) : ∀ v : String,
    lp (insert (TreeNode.mk v []) p) = [p] := by
  induction p with
  | nil =>
    intro v
    rw [insert_nil, lp_leaf]
  | cons a rest ih =>
    intro v
    rw [insert, if_neg (by simp), List.nil_append,
      lp_of_ne_nil _ _ (by simp), lpList_cons, lpList_nil, ih a]
    simp [value_insert, TreeNode.value_mk]

theorem wfList_cons (c : TreeNode) (cs : List TreeNode) :
    wfList (c :: cs) ↔ wfTree c ∧ wfList cs := by
  simp [wfList]

theorem map_insert_of_no_match (a : String) (rest : List String)
    (cs : List TreeNode) (h : ∀ c ∈ cs, c.value ≠ a) :
    cs.map (fun c => if c.value == a then insert c rest else c) = cs := by
  induction cs with
  | nil => rfl
  | cons c cs2 ih =>
    rw [List.map_cons, if_neg (by simp [h c (List.mem_cons_self c cs2)]),
      ih (fun c2 hc2 => h c2 (List.mem_cons_of_mem c hc2))]

theorem filter_keep_of_value_ne (a : String) (rest : List String)
    (cs : List TreeNode) (h : ∀ c ∈ cs, c.value ≠ a) :
    (lpList cs).filter (fun s => !(s.isPrefixOf (a :: rest))) = lpList cs := by
  apply List.filter_eq_self.mpr
  intro s hs
  rw [mem_lpList] at hs
  obtain ⟨c, hc, q, hq, rfl⟩ := hs
  simp [List.isPrefixOf, h c hc]

theorem filter_map_cons (a : String) (rest : List String) (L : List (List String)) :
    (L.map (fun q => a :: q)).filter (fun s => !(s.isPrefixOf (a :: rest)))
      = (L.filter (fun q => !(q.isPrefixOf rest))).map (fun q => a :: q) := by
  rw [List.filter_map]
  exact congrArg _ (List.filter_congr (fun q _ => by simp [Function.comp, List.isPrefixOf]))

theorem lpList_insert_match (a : String) (rest : List String) :
    ∀ cs : List TreeNode, wfList cs → (cs.map TreeNode.value).Nodup →
    (∀ c ∈ cs, wfTree c → (∀ q ∈ lp c, ¬ rest <+: q) →
        (lp (insert c rest)).Perm
          (rest :: (lp c).filter (fun s => !(s.isPrefixOf rest)))) →
    (∀ q ∈ lpList cs, ¬ (a :: rest) <+: q) →
    cs.any (fun c => c.value == a) = true →
    (lpList (cs.map (fun c => if c.value == a then insert c rest else c))).Perm
      ((a :: rest) :: (lpList cs).filter (fun s => !(s.isPrefixOf (a :: rest)))) := by
  intro cs
  induction cs with
  | nil =>
    intro _ _ _ _ hany
    simp at hany
  | cons c cs2 ih =>
    intro hwl hnd hIH hnp hany
    rw [wfList_cons] at hwl
    rw [List.map_cons, List.nodup_cons] at hnd
    by_cases hv : (c.value == a) = true
    · have hveq : c.value = a := by simpa using hv
      have hno : ∀ c2 ∈ cs2, c2.value ≠ a := by
        intro c2 hc2 hc2v
        exact hnd.1 (List.mem_map.mpr ⟨c2, hc2, by rw [hc2v, hveq]⟩)
      have hnpc : ∀ q ∈ lp c, ¬ rest <+: q := by
        intro q hq hpre
        apply hnp (c.value :: q)
        · rw [lpList_cons]
          exact List.mem_append_left _ (List.mem_map_of_mem _ hq)
        · rw [hveq]
          exact List.cons_prefix_cons.mpr ⟨rfl, hpre⟩
      have hperm := hIH c (List.mem_cons_self c cs2) hwl.1 hnpc
      rw [List.map_cons, if_pos hv, lpList_cons,
        map_insert_of_no_match a rest cs2 hno, value_insert, lpList_cons,
        List.filter_append, hveq, filter_map_cons a rest (lp c),
        filter_keep_of_value_ne a rest cs2 hno]
      have h1 : ((lp (insert c rest)).map (fun q => a :: q)).Perm
          ((a :: rest) ::
            ((lp c).filter (fun s => !(s.isPrefixOf rest))).map (fun q => a :: q)) := by
        have h2 := hperm.map (fun q => a :: q)
        simpa using h2
      exact h1.append_right _
    · have hvne : c.value ≠ a := by simpa using hv
      have hany2 : cs2.any (fun c2 => c2.value == a) = true := by
        rcases List.any_eq_true.mp hany with ⟨c2, hc2, hc2v⟩
        rcases List.mem_cons.mp hc2 with rfl | hc2
        · exact absurd hc2v hv
        · exact List.any_eq_true.mpr ⟨c2, hc2, hc2v⟩
      have hperm := ih hwl.2 hnd.2
        (fun c2 hc2 => hIH c2 (List.mem_cons_of_mem c hc2))
        (fun q hq => hnp q (by rw [lpList_cons]; exact List.mem_append_right _ hq))
        hany2
      rw [List.map_cons, if_neg hv, lpList_cons, lpList_cons, List.filter_append]
      have hblock : ((lp c).map (fun q => c.value :: q)).filter
          (fun s => !(s.isPrefixOf (a :: rest))) = (lp c).map (fun q => c.value :: q) := by
        apply List.filter_eq_self.mpr
        intro s hs
        rw [List.mem_map] at hs
        obtain ⟨q, hq, rfl⟩ := hs
        simp [List.isPrefixOf, hvne]
      rw [hblock]
      exact (hperm.append_left _).trans List.perm_middle

theorem lp_insert : ∀ (p : List String) (t : TreeNode), wfTree t → p ≠ [] →
    (∀ q ∈ lp t, ¬ p <+: q) →
    (lp (insert t p)).Perm (p :: (lp t).filter (fun s => !(s.isPrefixOf p))) := by
  intro p
  induction p with
  | nil =>
    intro t _ hp _
    exact absurd rfl hp
  | cons a rest ih =>
    intro t hwf hp hnp
    obtain ⟨v, cs⟩ := t
    rw [wfTree_iff] at hwf
    by_cases hany : cs.any (fun c => c.value == a) = true
    · obtain ⟨c0, hc0, hc0v⟩ := List.any_eq_true.mp hany
      have hc0veq : c0.value = a := by simpa using hc0v
      have hcs : cs ≠ [] := by
        rintro rfl
        simp at hc0
      obtain ⟨q0, hq0⟩ := List.exists_mem_of_ne_nil _ (lp_ne_nil c0)
      have hmem0 : c0.value :: q0 ∈ lp (TreeNode.mk v cs) := by
        rw [lp_of_ne_nil v cs hcs, mem_lpList]
        exact ⟨c0, hc0, q0, hq0, rfl⟩
      have hrest : rest ≠ [] := by
        rintro rfl
        exact hnp (c0.value :: q0) hmem0
          (by rw [hc0veq]; exact List.cons_prefix_cons.mpr ⟨rfl, List.nil_prefix⟩)
      have hmapne : cs.map (fun c => if c.value == a then insert c rest else c) ≠ [] :=
        fun hh => hcs (List.map_eq_nil_iff.mp hh)
      rw [insert, if_pos hany, lp_of_ne_nil _ _ hmapne, lp_of_ne_nil v cs hcs]
      exact lpList_insert_match a rest cs hwf.2 hwf.1
        (fun c _ hwfc hq => ih c hwfc hrest hq)
        (fun q hq => hnp q (by rw [lp_of_ne_nil v cs hcs]; exact hq))
        hany
    · rw [insert, if_neg hany]
      cases cs with
      | nil =>
        rw [List.nil_append, lp_of_ne_nil _ _ (by simp), lpList_cons, lpList_nil,
          lp_insert_fresh, value_insert, TreeNode.value_mk, lp_leaf]
        simp [List.isPrefixOf]
      | cons c cs2 =>
        have hno : ∀ c2 ∈ (c :: cs2), c2.value ≠ a :=
          fun c2 hc2 hv => hany (List.any_eq_true.mpr ⟨c2, hc2, by simp [hv]⟩)
        rw [lp_of_ne_nil _ _ (by simp : (c :: cs2) ++ [insert (TreeNode.mk a []) rest] ≠ []),
          lpList_append, lpList_cons (insert (TreeNode.mk a []) rest), lpList_nil,
          List.append_nil, lp_insert_fresh, value_insert, TreeNode.value_mk,
          lp_of_ne_nil v (c :: cs2) (by simp),
          filter_keep_of_value_ne a rest (c :: cs2) hno]
        simp only [List.map_cons, List.map_nil]
        exact List.perm_append_singleton _ _

theorem lp_foldl_insert : ∀ (rest : List (List String)) (t : TreeNode)
    (done : List (List String)),
    wfTree t → (lp t).Perm done →
    (∀ p ∈ rest, p ≠ []) →
    (∀ p ∈ rest, ∀ q ∈ done, ¬ p <+: q ∧ ¬ q <+: p) →
    List.Pairwise (fun p q => ¬ p <+: q ∧ ¬ q <+: p) rest →
    (lp (rest.foldl insert t)).Perm (done ++ rest) := by
  intro rest
  induction rest with
  | nil =>
    intro t done _ hperm _ _ _
    rw [List.foldl_nil, List.append_nil]
    exact hperm
  | cons p rest2 ih =>
    intro t done hwf hperm hne hpd hpw
    rw [List.foldl_cons]
    rw [List.pairwise_cons] at hpw
    have hstep := lp_insert p t hwf (hne p (List.mem_cons_self p rest2))
      (fun q hq hpre => (hpd p (List.mem_cons_self p rest2) q (hperm.mem_iff.mp hq)).1 hpre)
    have hfilter : (lp t).filter (fun s => !(s.isPrefixOf p)) = lp t := by
      apply List.filter_eq_self.mpr
      intro s hs
      have hns := (hpd p (List.mem_cons_self p rest2) s (hperm.mem_iff.mp hs)).2
      cases hb : s.isPrefixOf p
      · rfl
      · exact absurd (List.isPrefixOf_iff_prefix.mp hb) hns
    have hperm2 : (lp (insert t p)).Perm (done ++ [p]) := by
      refine hstep.trans ?_
      rw [hfilter]
      exact (hperm.cons p).trans (List.perm_append_singleton p done).symm
    have happlied := ih (insert t p) (done ++ [p]) (wf_insert p t hwf) hperm2
      (fun p2 hp2 => hne p2 (List.mem_cons_of_mem p hp2))
      (fun p2 hp2 q hq => by
        rw [List.mem_append] at hq
        rcases hq with hq | hq
        · exact hpd p2 (List.mem_cons_of_mem p hp2) q hq
        · rw [List.mem_singleton] at hq
          subst hq
          have h := hpw.1 p2 hp2
          exact ⟨h.2, h.1⟩)
      hpw.2
    rw [List.append_assoc] at happlied
    exact happlied

mutual

theorem leaves_perm_lp : ∀ t : TreeNode,
    (leaves t).Perm ((lp t).map (fun q => q.getLastD t.value))
  | .mk v [] => by
    rw [lp_leaf]
    exact List.Perm.refl [v]
  | .mk v (c :: cs) => by
    have h := leavesListRev_perm_lpList (c :: cs)
    rw [show leaves (TreeNode.mk v (c :: cs)) = leavesListRev (c :: cs) from by
        simp [leaves],
      lp_of_ne_nil v (c :: cs) (by simp), TreeNode.value_mk]
    refine h.trans ?_
    have heq : (lpList (c :: cs)).map (fun q => q.getLastD "")
        = (lpList (c :: cs)).map (fun q => q.getLastD v) := by
      apply List.map_congr_left
      intro q hq
      rw [mem_lpList] at hq
      obtain ⟨c2, _, q2, _, rfl⟩ := hq
      rw [List.getLastD_cons, List.getLastD_cons]
    rw [heq]

theorem leavesListRev_perm_lpList : ∀ cs : List TreeNode,
    (leavesListRev cs).Perm ((lpList cs).map (fun q => q.getLastD ""))
  | [] => by
    rw [lpList_nil]
    simp [leavesListRev]
  | c :: cs => by
    have h1 := leavesListRev_perm_lpList cs
    have h2 := leaves_perm_lp c
    rw [show leavesListRev (c :: cs) = leavesListRev cs ++ leaves c from by
        simp [leavesListRev],
      lpList_cons, List.map_append]
    have heq : ((lp c).map (fun q => c.value :: q)).map (fun q => q.getLastD "")
        = (lp c).map (fun q => q.getLastD c.value) := by
      rw [List.map_map]
      apply List.map_congr_left
      intro q _
      simp only [Function.comp_apply]
      rw [List.getLastD_cons]
    rw [heq]
    exact (h1.append h2).trans List.perm_append_comm

end

/-- C6 counterexample: the round trip loses a module name when one node's
inserted path is a prefix of another's — with nodes `pkg` (packages `[]`) and
`a` (packages `["pkg"]`) the leaf collection is `["a"]` and `"pkg"` is lost —
and duplicates names when two distinct nodes share an inserted path — with
nodes `a` (packages `[]`) and `a` (packages `[""]`) the leaf collection is
`["a"]` while the graph holds two modules named `a`. -/
theorem C6_counterexample :
    leaves (build_tree_from_dependency_graph
        (((Graph.new.add_node (PythonModule.mk "pkg" [])).2.add_node
          (PythonModule.mk "a" ["pkg"])).2)) = ["a"]
    ∧ "pkg" ∈ (((Graph.new.add_node (PythonModule.mk "pkg" [])).2.add_node
          (PythonModule.mk "a" ["pkg"])).2).get_nodes.map PythonModule.name
    ∧ "pkg" ∉ leaves (build_tree_from_dependency_graph
        (((Graph.new.add_node (PythonModule.mk "pkg" [])).2.add_node
          (PythonModule.mk "a" ["pkg"])).2))
    ∧ leaves (build_tree_from_dependency_graph
        (((Graph.new.add_node (PythonModule.mk "a" [])).2.add_node
          (PythonModule.mk "a" [""])).2)) = ["a"]
    ∧ (((Graph.new.add_node (PythonModule.mk "a" [])).2.add_node
          (PythonModule.mk "a" [""])).2).get_nodes.map PythonModule.name
        = ["a", "a"] := by
  have hb1 : build_tree_from_dependency_graph
      (((Graph.new.add_node (PythonModule.mk "pkg" [])).2.add_node
        (PythonModule.mk "a" ["pkg"])).2)
      = insert (insert (TreeNode.new "pygrader") ["pkg"]) ["pkg", "a"] := by
    rfl
  have h3 : insert (TreeNode.new "pygrader") ["pkg"]
      = TreeNode.mk "pygrader" [TreeNode.mk "pkg" []] := by
    simp [insert, TreeNode.new]
  have h4 : insert (TreeNode.mk "pygrader" [TreeNode.mk "pkg" []]) ["pkg", "a"]
      = TreeNode.mk "pygrader" [TreeNode.mk "pkg" [TreeNode.mk "a" []]] := by
    simp [insert, TreeNode.value_mk]
  have hl1 : leaves (build_tree_from_dependency_graph
      (((Graph.new.add_node (PythonModule.mk "pkg" [])).2.add_node
        (PythonModule.mk "a" ["pkg"])).2)) = ["a"] := by
    rw [hb1, h3, h4]
    simp [leaves, leavesListRev]
  have hb2 : build_tree_from_dependency_graph
      (((Graph.new.add_node (PythonModule.mk "a" [])).2.add_node
        (PythonModule.mk "a" [""])).2)
      = insert (insert (TreeNode.new "pygrader") ["a"]) ["a"] := by
    rfl
  have h5 : insert (TreeNode.new "pygrader") ["a"]
      = TreeNode.mk "pygrader" [TreeNode.mk "a" []] := by
    simp [insert, TreeNode.new]
  have h6 : insert (TreeNode.mk "pygrader" [TreeNode.mk "a" []]) ["a"]
      = TreeNode.mk "pygrader" [TreeNode.mk "a" []] := by
    simp [insert, TreeNode.value_mk, insert_nil]
  refine ⟨hl1, by decide, ?_, ?_, by decide⟩
  · rw [hl1]
    decide
  · rw [hb2, h5, h6]
    simp [leaves, leavesListRev]

/-- C6 (amended): for every graph of PythonModule nodes that is nonempty and
whose inserted paths (packages without empty segments, followed by the name)
are pairwise incomparable under the prefix order (no path a prefix of another,
in particular all distinct), inserting every node's path into a fresh tree and
depth-first-collecting the leaf values yields exactly the multiset of module
names in the graph: no name lost, none duplicated. -/
theorem C6_package_tree_round_trip (g : Graph PythonModule)
    (hne : g.get_nodes ≠ [])
    (hpw : List.Pairwise (fun p q => ¬ p <+: q ∧ ¬ q <+: p)
      (g.get_nodes.map modulePath)) :
    (leaves (build_tree_from_dependency_graph g)).Perm
      (g.get_nodes.map PythonModule.name) := by
  have hbuild : build_tree_from_dependency_graph g
      = (g.get_nodes.map modulePath).foldl insert (TreeNode.new "pygrader") := by
    rw [build_tree_from_dependency_graph, List.foldl_map]
  have hpne : ∀ p ∈ g.get_nodes.map modulePath, p ≠ [] := by
    intro p hp
    rw [List.mem_map] at hp
    obtain ⟨m, _, rfl⟩ := hp
    simp [modulePath]
  have hlast : ∀ d : String, g.get_nodes.map ((fun q => List.getLastD q d) ∘ modulePath)
      = g.get_nodes.map PythonModule.name := by
    intro d
    apply List.map_congr_left
    intro m _
    simp [Function.comp, modulePath]
  cases hps : g.get_nodes.map modulePath with
  | nil => exact absurd (List.map_eq_nil_iff.mp hps) hne
  | cons p rest =>
    rw [hbuild, hps, List.foldl_cons]
    rw [hps] at hpw
    rw [List.pairwise_cons] at hpw
    have hwf0 : wfTree (TreeNode.new "pygrader") := by
      rw [show TreeNode.new "pygrader" = TreeNode.mk "pygrader" [] from rfl, wfTree_iff]
      exact ⟨by simp, by simp [wfList]⟩
    have hfresh : lp (insert (TreeNode.new "pygrader") p) = [p] :=
      lp_insert_fresh p "pygrader"
    have hlp : (lp (rest.foldl insert (insert (TreeNode.new "pygrader") p))).Perm
        ([p] ++ rest) := by
      refine lp_foldl_insert rest _ [p] (wf_insert p _ hwf0) ?_ ?_ ?_ hpw.2
      · rw [hfresh]
      · intro p2 hp2
        exact hpne p2 (by rw [hps]; exact List.mem_cons_of_mem p hp2)
      · intro p2 hp2 q hq
        rw [List.mem_singleton] at hq
        subst hq
        have h := hpw.1 p2 hp2
        exact ⟨h.2, h.1⟩
    refine (leaves_perm_lp _).trans ?_
    refine (hlp.map _).trans ?_
    rw [show ([p] ++ rest : List (List String)) = p :: rest from rfl, ← hps,
      List.map_map, hlast]

/-- C6 witness: the amended round trip evaluated on a concrete two-node graph
with incomparable paths. -/
theorem C6_witness :
    (leaves (build_tree_from_dependency_graph
        (((Graph.new.add_node (PythonModule.mk "a" ["pkg"])).2.add_node
          (PythonModule.mk "b" ["pkg"])).2))).Perm
      ((((Graph.new.add_node (PythonModule.mk "a" ["pkg"])).2.add_node
          (PythonModule.mk "b" ["pkg"])).2).get_nodes.map PythonModule.name) :=
  C6_package_tree_round_trip _ (by decide) (by decide)

end Py2UML
